import Mathlib

/-!
# Verification of the Jinteia loot analyzer core

Shallow embedding of the log-parsing, sliding-window and aggregation code of
src/Jinteia-Loot-Analyzer-FREE.py, together with theorems settling the claims
about it.  Python datetimes are modelled by a record of calendar fields plus a
seconds-since-year-1 conversion; a raised ValueError is modelled as
Except.error; Python floats are modelled by exact rationals.
-/

namespace Jinteia

/-- ASCII decimal digit test.  Models the regex digit class on the ASCII
content of the log (the Unicode digit extension of the Python regex module is
outside the modelled character range). -/
def isDig (c : Char) : Bool := 48 ≤ c.toNat && c.toNat ≤ 57

/-- Numeric value of an ASCII digit character. -/
def dval (c : Char) : Nat := c.toNat - 48

/-- The ASCII character of a decimal digit value. -/
def digitChar : Nat → Char
  | 0 => '0'
  | 1 => '1'
  | 2 => '2'
  | 3 => '3'
  | 4 => '4'
  | 5 => '5'
  | 6 => '6'
  | 7 => '7'
  | 8 => '8'
  | _ => '9'

/-- Value of a run of ASCII digits, as read by the Python int constructor. -/
def digitsToNat (cs : List Char) : Nat := cs.foldl (fun a c => a * 10 + dval c) 0

/-- Calendar date and time of day as parsed from the log: two-digit year
(field y2), second resolution.  Models the fields of the datetime produced by
datetime.strptime on the fixed format. -/
structure DateTime where
  day : Nat
  month : Nat
  y2 : Nat
  hour : Nat
  minute : Nat
  second : Nat
  deriving DecidableEq, Repr, Inhabited

/-- The century convention of strptime for a two-digit year: 0 to 68 map to
the 2000s, 69 to 99 to the 1900s. -/
def fullYear (y2 : Nat) : Nat := if y2 ≤ 68 then 2000 + y2 else 1900 + y2

/-- Gregorian leap-year rule. -/
def isLeap (y : Nat) : Bool := y % 4 == 0 && (y % 100 != 0 || y % 400 == 0)

/-- Number of days in a month of a given (full) year. -/
def daysInMonth (m y : Nat) : Nat :=
  if m = 2 then (if isLeap y then 29 else 28)
  else if m = 4 ∨ m = 6 ∨ m = 9 ∨ m = 11 then 30
  else 31

/-- Days in the months strictly before month m of year y. -/
def daysBeforeMonth (m y : Nat) : Nat :=
  (List.range (m - 1)).foldl (fun a i => a + daysInMonth (i + 1) y) 0

/-- The validity check performed by datetime.strptime together with the
datetime constructor: month 1 to 12, day within the month, hour below 24,
minute and second below 60. -/
def DateTime.valid (d : DateTime) : Bool :=
  1 ≤ d.month && d.month ≤ 12 && 1 ≤ d.day &&
    d.day ≤ daysInMonth d.month (fullYear d.y2) &&
    d.hour ≤ 23 && d.minute ≤ 59 && d.second ≤ 59 && d.y2 ≤ 99

/-- Absolute time in seconds (from an arbitrary fixed origin, year 1 of the
proleptic Gregorian calendar).  Differences of this quantity model Python
datetime subtraction in total seconds. -/
def DateTime.tsSec (d : DateTime) : Int :=
  let y := fullYear d.y2
  let days := 365 * (y - 1) + (y - 1) / 4 - (y - 1) / 100 + (y - 1) / 400
    + daysBeforeMonth d.month y + (d.day - 1)
  ((days * 86400 + d.hour * 3600 + d.minute * 60 + d.second : Nat) : Int)

/-- One parsed log line: the LootEvent dataclass. -/
structure LootEvent where
  ts : DateTime
  quantity : Nat
  item : String
  deriving DecidableEq, Repr, Inhabited

/-- The is_yang property of LootEvent. -/
def LootEvent.is_yang (e : LootEvent) : Bool := e.item == "Yang"

/-! ## The line regex

LOG_LINE_RE applied with re.search.  The pattern is anchored on literal
markers, so its backtracking semantics collapse to a deterministic scan:
each two-digit group reads exactly two digits, the greedy quantity group
reads a maximal non-empty digit run that must be followed by a space, and
the lazy item group reads up to the first period at distance at least one,
never crossing a newline.  The search tries each start position from the
left and returns the first match. -/

/-- Consume one expected literal character. -/
def expectChar (c : Char) : List Char → Option (List Char)
  | a :: rest => if a = c then some rest else none
  | [] => none

/-- Consume an expected literal character sequence. -/
def expectLit : List Char → List Char → Option (List Char)
  | [], cs => some cs
  | l :: ls, cs => (expectChar l cs).bind (expectLit ls)

/-- Consume exactly two digit characters. -/
def readDig2 : List Char → Option (Char × Char × List Char)
  | a :: b :: rest => if isDig a && isDig b then some (a, b, rest) else none
  | _ => none

/-- The greedy quantity group: a maximal non-empty run of digits that the
following literal space of the pattern must terminate (a shorter
backtracked run would leave a digit where the space is required, so the
maximal run is the only candidate). -/
def readQty (cs : List Char) : Option (List Char × List Char) :=
  let q := cs.takeWhile isDig
  let rest := cs.dropWhile isDig
  if q = [] then none
  else (expectChar ' ' rest).map (fun r => (q, r))

/-- The lazy item group followed by the final literal period of the pattern:
the shortest non-empty run of non-newline characters whose next character is
a period, i.e. everything up to the first period at distance at least one,
failing when a newline or the end of the line intervenes. -/
def readItem (cs : List Char) : Option (List Char) :=
  match cs with
  | [] => none
  | c :: rest =>
    if c = '\n' then none else
    let tl := rest.takeWhile (fun x => x ≠ '.' && x ≠ '\n')
    match rest.drop tl.length with
    | '.' :: _ => some (c :: tl)
    | _ => none

/-- The date capture group: two digits, slash, two digits, slash, two
digits. -/
def readDatePart (cs : List Char) : Option (List Char × List Char) :=
  (readDig2 cs).bind fun (d1, d2, cs) =>
  (expectChar '/' cs).bind fun cs =>
  (readDig2 cs).bind fun (m1, m2, cs) =>
  (expectChar '/' cs).bind fun cs =>
  (readDig2 cs).map fun (y1, y2c, cs) =>
  ([d1, d2, '/', m1, m2, '/', y1, y2c], cs)

/-- The time capture group: two digits, colon, two digits, colon, two
digits. -/
def readTimePart (cs : List Char) : Option (List Char × List Char) :=
  (readDig2 cs).bind fun (h1, h2, cs) =>
  (expectChar ':' cs).bind fun cs =>
  (readDig2 cs).bind fun (m1, m2, cs) =>
  (expectChar ':' cs).bind fun cs =>
  (readDig2 cs).map fun (s1, s2, cs) =>
  ([h1, h2, ':', m1, m2, ':', s1, s2], cs)

/-- The literal characters between the date and time groups of the
pattern. -/
def litMid : List Char := [']', ' ', '[']

/-- The literal characters between the time group and the quantity group of
the pattern. -/
def litRecv : List Char :=
  [']', ':', ' ', 'Y', 'o', 'u', ' ', 'r', 'e', 'c', 'e', 'i', 'v', 'e', ' ']

/-- One attempted match of LOG_LINE_RE at the head of the character list,
returning the four capture groups: date string, time string, quantity digit
string, item string. -/
def matchAt (cs : List Char) : Option (String × String × String × String) :=
  (expectChar '[' cs).bind fun cs =>
  (readDatePart cs).bind fun (dstr, cs) =>
  (expectLit litMid cs).bind fun cs =>
  (readTimePart cs).bind fun (tstr, cs) =>
  (expectLit litRecv cs).bind fun cs =>
  (readQty cs).bind fun (q, cs) =>
  (readItem cs).map fun it =>
  (String.mk dstr, String.mk tstr, String.mk q, String.mk it)

/-- re.search: try each start position from the left, first success wins
(the pattern consumes at least one character, so the empty suffix never
matches). -/
def searchFrom : List Char → Option (String × String × String × String)
  | [] => none
  | c :: rest =>
    match matchAt (c :: rest) with
    | some g => some g
    | none => searchFrom rest

/-- Model of parse_datetime_from_log, that is datetime.strptime on the format
string with day, month, two-digit year, hour, minute, second.  It is only
ever called on the 8-character groups captured by the regex; a shape that
strptime would reject, and field values the strptime machinery or the
datetime constructor would reject, are both modelled as the raised
ValueError, i.e. Except.error. -/
def parse_datetime_from_log (date_str time_str : String) : Except String DateTime :=
  match date_str.data, time_str.data with
  | [d1, d2, '/', m1, m2, '/', y1, y2c], [h1, h2, ':', mi1, mi2, ':', s1, s2] =>
    if isDig d1 && isDig d2 && isDig m1 && isDig m2 && isDig y1 && isDig y2c &&
        isDig h1 && isDig h2 && isDig mi1 && isDig mi2 && isDig s1 && isDig s2 then
      let d : DateTime :=
        { day := dval d1 * 10 + dval d2
          month := dval m1 * 10 + dval m2
          y2 := dval y1 * 10 + dval y2c
          hour := dval h1 * 10 + dval h2
          minute := dval mi1 * 10 + dval mi2
          second := dval s1 * 10 + dval s2 }
      if d.valid then .ok d else .error "ValueError: invalid date or time"
    else .error "ValueError: time data does not match format"
  | _, _ => .error "ValueError: time data does not match format"

/-- Model of parse_log_line.  A non-matching line yields ok none; a matching
line yields a populated event, unless strptime raises, which propagates as
Except.error. -/
def parse_log_line (line : String) : Except String (Option LootEvent) :=
  match searchFrom line.data with
  | none => .ok none
  | some (date_str, time_str, qty_str, item) =>
    match parse_datetime_from_log date_str time_str with
    | .error e => .error e
    | .ok ts => .ok (some { ts := ts, quantity := digitsToNat qty_str.data, item := item })

/-- Does parse_log_line raise (propagate a ValueError)? -/
def raisesError : Except String (Option LootEvent) → Bool
  | .error _ => true
  | .ok _ => false

/-- Does the strptime model raise on this pair of captured groups? -/
def strptimeRaises (d t : String) : Bool :=
  match parse_datetime_from_log d t with
  | .error _ => true
  | .ok _ => false

/-- The item name extracted from a line, when a populated event results. -/
def parsedItemOf (line : String) : Option String :=
  match parse_log_line line with
  | .ok (some ev) => some ev.item
  | _ => none


/-! ## The sliding window -/

/-- Model of LiveMonitorWorker.add_event: append the event at the tail, then,
unless ignore_cutoff, pop from the head while the head timestamp is strictly
before the cutoff, the cutoff being the pushed event timestamp minus the
window duration. -/
def add_event (window_minutes : Nat) (window : List LootEvent) (ev : LootEvent)
    (ignore_cutoff : Bool) : List LootEvent :=
  let w := window ++ [ev]
  if ignore_cutoff then w
  else w.dropWhile (fun e => e.ts.tsSec < ev.ts.tsSec - (window_minutes * 60 : Nat))

/-! ## The aggregator -/

/-- Python round() at an exact value: round half to even.  The code applies
it to a float quotient; the embedding computes the same quotient exactly in
the rationals. -/
def pyRound (q : Rat) : Int :=
  let f := q.floor
  let r := q - f
  if r < 1 / 2 then f
  else if 1 / 2 < r then f + 1
  else if f % 2 = 0 then f else f + 1

/-- One defaultdict(int) update, preserving dict insertion order: increment
an existing key in place, or append a new key at the end. -/
def bump (l : List (String × Nat)) (k : String) (q : Nat) : List (String × Nat) :=
  match l with
  | [] => [(k, q)]
  | (n, v) :: rest => if n = k then (n, v + q) :: rest else (n, v) :: bump rest k q

/-- dict.get(name, 0) on the price table. -/
def priceGet (prices : List (String × Int)) (k : String) : Int :=
  match prices with
  | [] => 0
  | (n, v) :: rest => if n = k then v else priceGet rest k

/-- The per-dungeon data of the DUNGEONS table: the chest item names and the
display color. -/
structure DungeonInfo where
  items : List String
  color : String
  deriving DecidableEq, Repr

/-- The DUNGEONS table, in source order. -/
def DUNGEONS : List (String × DungeonInfo) :=
  [ ("Razador", { items := ["Truhe des Razador", "Razador\x27s Chest"], color := "#7f1d1d" }),
    ("Nemere", { items := ["Truhe des Nemere", "Nemere\x27s Chest"], color := "#1e3a8a" }),
    ("Jotun", { items := ["Truhe des Jotun Thrym", "Jotun Thrym\x27s Chest"], color := "#14532d" }),
    ("Blue Death", { items := ["Truhe der H√∂llfenpforte", "Truhe der H√∂llenpforte", "Hellgates Chest"], color := "#0c4a6e" }),
    ("Natuhu", { items := ["Truhe des Eulen-K√∂nig", "Chest of the Owl King"], color := "#581c87" }),
    ("Taliko", { items := ["Talikos Reichtum", "Taliko\x27s Riches"], color := "#92400e" }),
    ("Affengott", { items := ["Affengottes Schatz", "Monkey God\x27s Treasure"], color := "#065f46" }),
    ("Nalantir", { items := ["Nalantirs Verm√§chtnis", "Nalantir\x27s Legacy"], color := "#4c1d95" }),
    ("Nozdormu", { items := ["Schatz der Dornen", "Treasure of Thorns"], color := "#991b1b" }) ]

/-- The accumulators of the single event pass of compute_stats_from_window:
per-item quantities, per-dungeon run counts, total run count. -/
structure LoopAcc where
  items_qty : List (String × Nat)
  dungeon_runs : List (String × Nat)
  total_runs : Nat
  deriving DecidableEq, Repr

/-- The body of the inner loop over the DUNGEONS table for one event: if the
chest list of the dungeon holds the item, bump that dungeon and the total by
the full received quantity. -/
def dungeonStep (ev : LootEvent) (a : LoopAcc) (dd : String × DungeonInfo) : LoopAcc :=
  if dd.2.items.contains ev.item then
    { a with
      dungeon_runs := bump a.dungeon_runs dd.1 ev.quantity
      total_runs := a.total_runs + ev.quantity }
  else a

/-- The body of the event loop of compute_stats_from_window: skip currency,
accumulate the item quantity, and bump every dungeon whose chest list holds
the item by the full received quantity. -/
def tallyEvent (acc : LoopAcc) (ev : LootEvent) : LoopAcc :=
  if ev.is_yang then acc
  else
    let acc1 := { acc with items_qty := bump acc.items_qty ev.item ev.quantity }
    DUNGEONS.foldl (dungeonStep ev) acc1

/-- The stats dict returned by compute_stats_from_window. -/
structure Stats where
  tStart : DateTime
  tEnd : DateTime
  hours : Rat
  minutes : Rat
  dropped_yang : Nat
  yang_per_hour : Int
  yang_per_minute : Int
  items : List (String × Nat × Int × Int)
  dungeon_runs : List (String × Nat)
  total_dungeon_runs : Nat
  deriving DecidableEq, Repr

/-- The last element of a non-empty list, carried as head plus tail. -/
def lastEv : LootEvent → List LootEvent → LootEvent
  | d, [] => d
  | _, x :: xs => lastEv x xs

/-- Stable insertion for the descending-by-quantity sort: the new entry goes
after every entry of at least its quantity and before the first strictly
smaller one. -/
def insertByQty (x : String × Nat × Int × Int) :
    List (String × Nat × Int × Int) → List (String × Nat × Int × Int)
  | [] => [x]
  | y :: ys => if y.2.1 < x.2.1 then x :: y :: ys else y :: insertByQty x ys

/-- list.sort(key quantity, reverse) — a stable descending sort by the
quantity component. -/
def sortByQtyDesc (l : List (String × Nat × Int × Int)) :
    List (String × Nat × Int × Int) :=
  l.foldl (fun acc x => insertByQty x acc) []

/-- Model of LiveMonitorWorker.compute_stats_from_window: None on an empty
window; otherwise one pass of tallies, the elapsed time floored at one
second, integer-rounded rates, per-item valuation against the price table,
and the items sorted by descending quantity. -/
def compute_stats_from_window (window : List LootEvent)
    (prices : List (String × Int)) : Option Stats :=
  match window with
  | [] => none
  | e0 :: rest =>
    let events_list := e0 :: rest
    let dropped_yang :=
      (events_list.filter (fun e => e.is_yang)).foldl (fun a e => a + e.quantity) 0
    let acc := events_list.foldl tallyEvent
      { items_qty := [], dungeon_runs := [], total_runs := 0 }
    let tStart := e0.ts
    let tEnd := (lastEv e0 rest).ts
    let elapsed : Int := max (tEnd.tsSec - tStart.tsSec) 1
    let hours : Rat := (elapsed : Rat) / 3600
    let minutes : Rat := (elapsed : Rat) / 60
    let items_list := sortByQtyDesc (acc.items_qty.map (fun nq =>
      (nq.1, nq.2, pyRound ((nq.2 : Rat) / hours), (nq.2 : Int) * priceGet prices nq.1)))
    some
      { tStart := tStart
        tEnd := tEnd
        hours := hours
        minutes := minutes
        dropped_yang := dropped_yang
        yang_per_hour := pyRound ((dropped_yang : Rat) / hours)
        yang_per_minute := pyRound ((dropped_yang : Rat) / minutes)
        items := items_list
        dungeon_runs := acc.dungeon_runs
        total_dungeon_runs := acc.total_runs }

/-! ## Re-serialization of an event -/

/-- Two-digit zero-padded decimal rendering of a field below 100. -/
def pad2 (n : Nat) : List Char := [digitChar (n / 10), digitChar (n % 10)]

/-- Canonical decimal rendering, on structural fuel (any fuel above the
number suffices, see natToCharsAux_spec). -/
def natToCharsAux : Nat → Nat → List Char
  | 0, _ => []
  | fuel + 1, n =>
    if n < 10 then [digitChar n]
    else natToCharsAux fuel (n / 10) ++ [digitChar (n % 10)]

/-- Canonical decimal rendering of a natural number, as str() writes an
int. -/
def natToChars (n : Nat) : List Char := natToCharsAux (n + 1) n

/-- Modelled from the spec: the repository has no serializer; this renders
the extracted fields back into the line grammar of section 4.1, with the
bracketed date and time, the literal marker, the decimal quantity, the item
name and the trailing period. -/
def serializeEvent (ev : LootEvent) : String :=
  String.mk ('[' :: (pad2 ev.ts.day ++ '/' :: (pad2 ev.ts.month ++ '/' :: (pad2 ev.ts.y2
    ++ litMid ++ (pad2 ev.ts.hour ++ ':' :: (pad2 ev.ts.minute
    ++ ':' :: (pad2 ev.ts.second
    ++ litRecv ++ (natToChars ev.quantity
    ++ ' ' :: (ev.item.data ++ ['.'])))))))))

/-- The re-serialization of the event a line parses to, when one results. -/
def reserializedOf (line : String) : Option String :=
  match parse_log_line line with
  | .ok (some ev) => some (serializeEvent ev)
  | _ => none

/-! ## The tail driver

The run method is modelled as a function of the open outcome, the start
mode, the pre-existing lines, and an abstract schedule of loop iterations:
each iteration optionally reads one line (none models an empty readline) and
the wall-clock cadence guard is abstracted as a boolean tick.  A ValueError
propagating out of parse_log_line kills the thread: nothing further is
emitted on that branch. -/

/-- A notification handed to update_callback (the keys of the dicts the code
passes: a status string, an error string, or a full stats snapshot). -/
inductive Notification where
  | status (s : String)
  | error (s : String)
  | snap (st : Stats)
  deriving DecidableEq, Repr

/-- Is the notification an error? -/
def Notification.isError : Notification → Bool
  | .error _ => true
  | _ => false

/-- Is the notification a stats snapshot? -/
def Notification.isSnap : Notification → Bool
  | .snap _ => true
  | _ => false

/-- One iteration of the live loop: an optionally read line, and whether the
refresh cadence fires this iteration. -/
structure Step where
  line : Option String
  tick : Bool

/-- The historical bulk load: every pre-existing line is parsed and pushed
with ignore_cutoff, skipping non-matching lines.  none models the thread
dying on a propagated ValueError. -/
def histLoad (window_minutes : Nat) : List String → List LootEvent →
    Option (List LootEvent)
  | [], w => some w
  | l :: ls, w =>
    match parse_log_line l with
    | .error _ => none
    | .ok none => histLoad window_minutes ls w
    | .ok (some ev) => histLoad window_minutes ls (add_event window_minutes w ev true)

/-- The live loop over the schedule: read and push, then on a cadence tick
emit the computed stats when they are not None; the end of the schedule is
the stop signal, after which the final status is emitted.  A propagated
ValueError ends the thread with no further notifications. -/
def stepLoop (window_minutes : Nat) (prices : List (String × Int)) :
    List Step → List LootEvent → List Notification
  | [], _ => [.status "Monitoring stopped."]
  | s :: rest, w =>
    match
      (match s.line with
        | none => some w
        | some l =>
          match parse_log_line l with
          | .error _ => none
          | .ok none => some w
          | .ok (some ev) => some (add_event window_minutes w ev false)) with
    | none => []
    | some w2 =>
      (if s.tick then
        (match compute_stats_from_window w2 prices with
          | some st => [Notification.snap st]
          | none => [])
      else []) ++ stepLoop window_minutes prices rest w2

/-- Model of LiveMonitorWorker.run: the opening status, then on open failure
the single error notification and termination; on success either the
historical load (status before, status and immediate snapshot after) or the
seek to the end, followed by the live loop. -/
def runWorker (openOk : Bool) (from_start : Bool) (histLines : List String)
    (steps : List Step) (window_minutes : Nat) (prices : List (String × Int)) :
    List Notification :=
  if openOk = false then
    [.status "Opening log file...", .error "Cannot open log file"]
  else
    Notification.status "Opening log file..." ::
    (if from_start then
      Notification.status "Reading historical data (this may take a moment)..." ::
      (match histLoad window_minutes histLines [] with
        | none => []
        | some w =>
          Notification.status "Historical data loaded. Starting live monitor." ::
          ((match compute_stats_from_window w prices with
            | some st => [Notification.snap st]
            | none => []) ++ stepLoop window_minutes prices steps w))
    else
      Notification.status "Monitoring live logs..." ::
      stepLoop window_minutes prices steps [])

/-- The total currency quantity of a window, stated independent of the
aggregation loop. -/
def yangTotal (l : List LootEvent) : Nat :=
  ((l.filter (fun e => e.is_yang)).map (fun e => e.quantity)).sum

/-- First-match association lookup in a name-to-count list. -/
def lookupNat (l : List (String × Nat)) (k : String) : Option Nat :=
  match l with
  | [] => none
  | (n, v) :: rest => if n = k then some v else lookupNat rest k

/-- The keys of a name-to-count list. -/
def keysOf (l : List (String × Nat)) : List String := l.map Prod.fst

/-- First-match association lookup in the DUNGEONS table. -/
def dLookup (l : List (String × DungeonInfo)) (k : String) : Option DungeonInfo :=
  match l with
  | [] => none
  | (n, v) :: rest => if n = k then some v else dLookup rest k

/-- Does a non-currency event for this item name occur in the window? -/
def occursItem (l : List LootEvent) (name : String) : Bool :=
  l.any (fun e => !e.is_yang && e.item == name)

/-- The aggregated received quantity of one item name over a window, stated
independent of the aggregation loop. -/
def itemQtySum (l : List LootEvent) (name : String) : Nat :=
  ((l.filter (fun e => !e.is_yang && e.item == name)).map (fun e => e.quantity)).sum

/-- The total received quantity of the events whose item lies in a chest
list, stated independent of the aggregation loop. -/
def dungeonQtySum (l : List LootEvent) (items : List String) : Nat :=
  ((l.filter (fun e => !e.is_yang && items.contains e.item)).map
    (fun e => e.quantity)).sum

/-- Does a non-currency event for an item of this chest list occur in the
window? -/
def dOccurs (l : List LootEvent) (items : List String) : Bool :=
  l.any (fun e => !e.is_yang && items.contains e.item)

/-- Chronological order on events, by total seconds. -/
def tsle (a b : LootEvent) : Prop := a.ts.tsSec ≤ b.ts.tsSec

instance tsle_trans : IsTrans LootEvent tsle :=
  ⟨fun _ _ _ h1 h2 => le_trans h1 h2⟩

instance tsle_decidable : DecidableRel tsle := fun a b =>
  inferInstanceAs (Decidable (a.ts.tsSec ≤ b.ts.tsSec))

/-- Every event of the live path is pushed through add_event with
ignore_cutoff false; this folds a whole sequence of pushes from a given
window. -/
def pushAll (wm : Nat) (w0 : List LootEvent) (evs : List LootEvent) : List LootEvent :=
  evs.foldl (fun w e => add_event wm w e false) w0

/-- A sample timestamp for concrete checks. -/
def sampleTs : DateTime := { day := 1, month := 1, y2 := 25, hour := 0, minute := 0, second := 0 }

/-- A second sample timestamp, two hours later. -/
def sampleTs2 : DateTime := { day := 1, month := 1, y2 := 25, hour := 2, minute := 0, second := 0 }

/-! ## Helper lemmas -/

theorem dropWhile_concat_last {α : Type} (p : α → Bool) (l : List α) (x : α)
    (hx : p x = false) :
    (l ++ [x]).dropWhile p ≠ [] ∧ ((l ++ [x]).dropWhile p).getLast? = some x := by
  induction l with
  | nil => simp [List.dropWhile, hx]
  | cons a l ih =>
    by_cases ha : p a
    · simpa [List.dropWhile, ha] using ih
    · refine ⟨by simp [List.dropWhile, ha], ?_⟩
      simp only [List.cons_append, List.dropWhile, ha]
      exact List.getLast?_concat (a :: l)

theorem cutoff_pred_self (wm : Nat) (ev : LootEvent) :
    (decide (ev.ts.tsSec < ev.ts.tsSec - ((wm * 60 : Nat) : Int))) = false := by
  simp only [decide_eq_false_iff_not, not_lt]
  omega

theorem foldl_add_quantity (l : List LootEvent) :
    ∀ a : Nat, l.foldl (fun a e => a + e.quantity) a =
      a + ((l.map (fun e => e.quantity)).sum) := by
  induction l with
  | nil => intro a; simp
  | cons e l ih =>
    intro a
    simp only [List.foldl_cons, List.map_cons, List.sum_cons]
    rw [ih]
    omega

theorem dropped_yang_eq (l : List LootEvent) :
    (l.filter (fun e => e.is_yang)).foldl (fun a e => a + e.quantity) 0 =
      yangTotal l := by
  rw [foldl_add_quantity]
  simp [yangTotal]

theorem bump_lookup_same (l : List (String × Nat)) (k : String) (q : Nat) :
    lookupNat (bump l k q) k = some ((lookupNat l k).getD 0 + q) := by
  induction l with
  | nil => simp [bump, lookupNat]
  | cons p rest ih =>
    obtain ⟨n, v⟩ := p
    by_cases h : n = k
    · subst h
      simp [bump, lookupNat]
    · simp [bump, lookupNat, h, ih]

theorem bump_lookup_other (l : List (String × Nat)) (k : String) (q : Nat)
    (m : String) (hm : m ≠ k) :
    lookupNat (bump l k q) m = lookupNat l m := by
  induction l with
  | nil => simp [bump, lookupNat, Ne.symm hm]
  | cons p rest ih =>
    obtain ⟨n, v⟩ := p
    by_cases h : n = k
    · subst h
      simp [bump, lookupNat, Ne.symm hm]
    · simp only [bump, if_neg h, lookupNat]
      by_cases h2 : n = m
      · simp [h2]
      · simp [h2, ih]

theorem keysOf_bump (l : List (String × Nat)) (k : String) (q : Nat) :
    keysOf (bump l k q) =
      if k ∈ keysOf l then keysOf l else keysOf l ++ [k] := by
  induction l with
  | nil => simp [bump, keysOf]
  | cons p rest ih =>
    obtain ⟨n, v⟩ := p
    by_cases h : n = k
    · subst h
      simp [bump, keysOf]
    · simp only [bump, if_neg h, keysOf, List.map_cons] at ih ⊢
      rw [ih]
      by_cases h2 : k ∈ List.map Prod.fst rest
      · simp [h2, Ne.symm h]
      · simp [h2, Ne.symm h]

theorem bump_nodup (l : List (String × Nat)) (k : String) (q : Nat)
    (h : (keysOf l).Nodup) : (keysOf (bump l k q)).Nodup := by
  rw [keysOf_bump]
  by_cases hk : k ∈ keysOf l
  · simpa [hk] using h
  · simp only [if_neg hk]
    rw [List.nodup_append]
    exact ⟨h, List.nodup_singleton k, by simpa using fun hh => hk hh⟩

theorem lookup_of_mem_nodup (l : List (String × Nat)) (n : String) (v : Nat)
    (hnd : (keysOf l).Nodup) (hmem : (n, v) ∈ l) :
    lookupNat l n = some v := by
  induction l with
  | nil => simp at hmem
  | cons p rest ih =>
    obtain ⟨a, b⟩ := p
    simp only [keysOf, List.map_cons, List.nodup_cons] at hnd
    rcases List.mem_cons.mp hmem with heq | hmem2
    · injection heq with h1 h2
      subst h1
      subst h2
      simp [lookupNat]
    · have hn : a ≠ n := by
        intro h
        subst h
        exact hnd.1 (by simpa using List.mem_map_of_mem Prod.fst hmem2)
      simp only [lookupNat, if_neg hn]
      exact ih hnd.2 hmem2

theorem itemQtySum_cons (e : LootEvent) (l : List LootEvent) (name : String) :
    itemQtySum (e :: l) name =
      (if (!e.is_yang && e.item == name) then e.quantity else 0) +
        itemQtySum l name := by
  simp only [itemQtySum, List.filter]
  cases h : (!e.is_yang && e.item == name) <;> simp [h]

theorem occursItem_cons (e : LootEvent) (l : List LootEvent) (name : String) :
    occursItem (e :: l) name =
      ((!e.is_yang && e.item == name) || occursItem l name) := rfl

theorem dungeonQtySum_cons (e : LootEvent) (l : List LootEvent) (items : List String) :
    dungeonQtySum (e :: l) items =
      (if (!e.is_yang && items.contains e.item) then e.quantity else 0) +
        dungeonQtySum l items := by
  simp only [dungeonQtySum, List.filter]
  cases h : (!e.is_yang && items.contains e.item) <;> simp [h]

theorem dOccurs_cons (e : LootEvent) (l : List LootEvent) (items : List String) :
    dOccurs (e :: l) items =
      ((!e.is_yang && items.contains e.item) || dOccurs l items) := rfl

theorem dungeonStep_items_qty (ev : LootEvent) (a : LoopAcc)
    (dd : String × DungeonInfo) :
    (dungeonStep ev a dd).items_qty = a.items_qty := by
  unfold dungeonStep
  split <;> rfl

theorem dungeonFold_items_qty (ev : LootEvent) :
    ∀ (ds : List (String × DungeonInfo)) (a : LoopAcc),
      (ds.foldl (dungeonStep ev) a).items_qty = a.items_qty := by
  intro ds
  induction ds with
  | nil => intro a; rfl
  | cons dd ds ih =>
    intro a
    rw [List.foldl_cons, ih, dungeonStep_items_qty]

theorem tally_items_step (acc : LoopAcc) (ev : LootEvent) :
    (tallyEvent acc ev).items_qty =
      if ev.is_yang then acc.items_qty
      else bump acc.items_qty ev.item ev.quantity := by
  unfold tallyEvent
  cases hy : ev.is_yang with
  | true => simp
  | false => simp [dungeonFold_items_qty]

theorem tally_fold_items :
    ∀ (l : List LootEvent) (acc : LoopAcc), (keysOf acc.items_qty).Nodup →
      (keysOf ((l.foldl tallyEvent acc).items_qty)).Nodup ∧
      ∀ name, lookupNat ((l.foldl tallyEvent acc).items_qty) name =
        (match lookupNat acc.items_qty name with
          | some v => some (v + itemQtySum l name)
          | none =>
            if occursItem l name then some (itemQtySum l name) else none) := by
  intro l
  induction l with
  | nil =>
    intro acc h
    refine ⟨h, ?_⟩
    intro name
    have hs : itemQtySum [] name = 0 := rfl
    have ho : occursItem [] name = false := rfl
    simp only [List.foldl_nil, hs, ho]
    cases hl : lookupNat acc.items_qty name <;> simp
  | cons ev l ih =>
    intro acc h
    rw [List.foldl_cons]
    cases hy : ev.is_yang with
    | true =>
      have hacc : (tallyEvent acc ev).items_qty = acc.items_qty := by
        simp [tally_items_step, hy]
      obtain ⟨ihn, ihl⟩ := ih (tallyEvent acc ev) (by rw [hacc]; exact h)
      refine ⟨ihn, ?_⟩
      intro name
      rw [ihl name, hacc]
      have hs : itemQtySum (ev :: l) name = itemQtySum l name := by
        simp [itemQtySum_cons, hy]
      have ho : occursItem (ev :: l) name = occursItem l name := by
        simp [occursItem_cons, hy]
      simp only [hs, ho]
    | false =>
      have hacc : (tallyEvent acc ev).items_qty =
          bump acc.items_qty ev.item ev.quantity := by
        simp [tally_items_step, hy]
      obtain ⟨ihn, ihl⟩ := ih (tallyEvent acc ev)
        (by rw [hacc]; exact bump_nodup _ _ _ h)
      refine ⟨ihn, ?_⟩
      intro name
      rw [ihl name]
      by_cases hname : name = ev.item
      · subst hname
        rw [hacc, bump_lookup_same]
        have hs : itemQtySum (ev :: l) ev.item = ev.quantity + itemQtySum l ev.item := by
          simp [itemQtySum_cons, hy]
        have ho : occursItem (ev :: l) ev.item = true := by
          simp [occursItem_cons, hy]
        simp only [hs, ho, if_pos]
        cases hl : lookupNat acc.items_qty ev.item <;> simp [hl] <;> omega
      · have hb : (ev.item == name) = false := by
          rw [beq_eq_false_iff_ne]
          exact fun hh => hname hh.symm
        rw [hacc, bump_lookup_other _ _ _ _ hname]
        have hs : itemQtySum (ev :: l) name = itemQtySum l name := by
          simp [itemQtySum_cons, hb]
        have ho : occursItem (ev :: l) name = occursItem l name := by
          simp [occursItem_cons, hb]
        simp only [hs, ho]

theorem dLookup_none_of_not_mem (ds : List (String × DungeonInfo)) (name : String)
    (h : name ∉ ds.map Prod.fst) : dLookup ds name = none := by
  induction ds with
  | nil => rfl
  | cons dd ds ih =>
    obtain ⟨d, info⟩ := dd
    simp only [List.map_cons, List.mem_cons] at h
    push_neg at h
    simp only [dLookup, if_neg (Ne.symm h.1)]
    exact ih h.2

theorem dungeonPass_lookup (ev : LootEvent) :
    ∀ (ds : List (String × DungeonInfo)) (a : LoopAcc), (ds.map Prod.fst).Nodup →
      ∀ name, lookupNat ((ds.foldl (dungeonStep ev) a).dungeon_runs) name =
        (match dLookup ds name with
          | some info =>
            if info.items.contains ev.item then
              some ((lookupNat a.dungeon_runs name).getD 0 + ev.quantity)
            else lookupNat a.dungeon_runs name
          | none => lookupNat a.dungeon_runs name) := by
  intro ds
  induction ds with
  | nil => intro a h name; rfl
  | cons dd ds ih =>
    intro a h name
    obtain ⟨d, info⟩ := dd
    simp only [List.map_cons, List.nodup_cons] at h
    rw [List.foldl_cons, ih (dungeonStep ev a (d, info)) h.2 name]
    by_cases hd : d = name
    · subst hd
      have hnone : dLookup ds d = none := dLookup_none_of_not_mem ds d h.1
      have hcons : dLookup ((d, info) :: ds) d = some info := by simp [dLookup]
      simp only [hnone, hcons]
      unfold dungeonStep
      by_cases hc : ev.item ∈ info.items
      · simp [hc, bump_lookup_same]
      · simp [hc]
    · have hcons : dLookup ((d, info) :: ds) name = dLookup ds name := by
        simp [dLookup, hd]
      simp only [hcons]
      have hstep : lookupNat (dungeonStep ev a (d, info)).dungeon_runs name =
          lookupNat a.dungeon_runs name := by
        unfold dungeonStep
        dsimp only
        by_cases hcb : info.items.contains ev.item = true
        · rw [if_pos hcb]
          exact bump_lookup_other _ _ _ _ (fun hh => hd hh.symm)
        · rw [if_neg hcb]
      simp only [hstep]

theorem dungeonStep_nodup (ev : LootEvent) (a : LoopAcc) (dd : String × DungeonInfo)
    (h : (keysOf a.dungeon_runs).Nodup) :
    (keysOf (dungeonStep ev a dd).dungeon_runs).Nodup := by
  unfold dungeonStep
  split
  · exact bump_nodup _ _ _ h
  · exact h

theorem dungeonPass_nodup (ev : LootEvent) :
    ∀ (ds : List (String × DungeonInfo)) (a : LoopAcc),
      (keysOf a.dungeon_runs).Nodup →
      (keysOf ((ds.foldl (dungeonStep ev) a).dungeon_runs)).Nodup := by
  intro ds
  induction ds with
  | nil => intro a h; exact h
  | cons dd ds ih =>
    intro a h
    rw [List.foldl_cons]
    exact ih _ (dungeonStep_nodup ev a dd h)

theorem tally_dungeon_runs_yang (acc : LoopAcc) (ev : LootEvent)
    (hy : ev.is_yang = true) : (tallyEvent acc ev).dungeon_runs = acc.dungeon_runs := by
  simp [tallyEvent, hy]

theorem tally_dungeon_runs_item (acc : LoopAcc) (ev : LootEvent)
    (hy : ev.is_yang = false) :
    (tallyEvent acc ev).dungeon_runs =
      (DUNGEONS.foldl (dungeonStep ev)
        { acc with items_qty := bump acc.items_qty ev.item ev.quantity }).dungeon_runs := by
  simp [tallyEvent, hy]

theorem tally_fold_dungeons :
    ∀ (l : List LootEvent) (acc : LoopAcc), (keysOf acc.dungeon_runs).Nodup →
      (keysOf ((l.foldl tallyEvent acc).dungeon_runs)).Nodup ∧
      ∀ name info, dLookup DUNGEONS name = some info →
        lookupNat ((l.foldl tallyEvent acc).dungeon_runs) name =
          (match lookupNat acc.dungeon_runs name with
            | some v => some (v + dungeonQtySum l info.items)
            | none =>
              if dOccurs l info.items then some (dungeonQtySum l info.items)
              else none) := by
  intro l
  induction l with
  | nil =>
    intro acc h
    refine ⟨h, ?_⟩
    intro name info _
    have hs : dungeonQtySum [] info.items = 0 := rfl
    have ho : dOccurs [] info.items = false := rfl
    simp only [List.foldl_nil, hs, ho]
    cases hl : lookupNat acc.dungeon_runs name <;> simp
  | cons ev l ih =>
    intro acc h
    rw [List.foldl_cons]
    cases hy : ev.is_yang with
    | true =>
      have hacc : (tallyEvent acc ev).dungeon_runs = acc.dungeon_runs :=
        tally_dungeon_runs_yang acc ev hy
      obtain ⟨ihn, ihl⟩ := ih (tallyEvent acc ev) (by rw [hacc]; exact h)
      refine ⟨ihn, ?_⟩
      intro name info hlk
      rw [ihl name info hlk, hacc]
      have hs : dungeonQtySum (ev :: l) info.items = dungeonQtySum l info.items := by
        simp [dungeonQtySum_cons, hy]
      have ho : dOccurs (ev :: l) info.items = dOccurs l info.items := by
        simp [dOccurs_cons, hy]
      simp only [hs, ho]
    | false =>
      have hnd : (DUNGEONS.map Prod.fst).Nodup := by decide
      have hacc : (tallyEvent acc ev).dungeon_runs =
          (DUNGEONS.foldl (dungeonStep ev)
            { acc with items_qty := bump acc.items_qty ev.item ev.quantity }).dungeon_runs :=
        tally_dungeon_runs_item acc ev hy
      obtain ⟨ihn, ihl⟩ := ih (tallyEvent acc ev)
        (by rw [hacc]; exact dungeonPass_nodup ev DUNGEONS _ h)
      refine ⟨ihn, ?_⟩
      intro name info hlk
      rw [ihl name info hlk, hacc,
        dungeonPass_lookup ev DUNGEONS _ hnd name, hlk]
      by_cases hc : ev.item ∈ info.items
      · have hs : dungeonQtySum (ev :: l) info.items =
            ev.quantity + dungeonQtySum l info.items := by
          simp [dungeonQtySum_cons, hy, hc]
        have ho : dOccurs (ev :: l) info.items = true := by
          simp [dOccurs_cons, hy, hc]
        cases hl : lookupNat acc.dungeon_runs name <;>
          simp [hc, hs, ho, hl] <;> omega
      · have hs : dungeonQtySum (ev :: l) info.items = dungeonQtySum l info.items := by
          simp [dungeonQtySum_cons, hc]
        have ho : dOccurs (ev :: l) info.items = dOccurs l info.items := by
          simp [dOccurs_cons, hc]
        cases hl : lookupNat acc.dungeon_runs name <;>
          simp [hc, hs, ho, hl]

theorem pyRound_intCast (z : Int) : pyRound (z : Rat) = z := by
  have hf : (z : Rat).floor = z := by
    rw [Rat.floor_def']
    simp
  simp only [pyRound, hf, sub_self]
  norm_num

theorem insertByQty_mem (x y : String × Nat × Int × Int) :
    ∀ l : List (String × Nat × Int × Int), y ∈ insertByQty x l → y = x ∨ y ∈ l := by
  intro l
  induction l with
  | nil =>
    intro h
    simp only [insertByQty, List.mem_singleton] at h
    exact Or.inl h
  | cons z zs ih =>
    intro h
    simp only [insertByQty] at h
    split at h
    · rcases List.mem_cons.mp h with h1 | h1
      · exact Or.inl h1
      · exact Or.inr h1
    · rcases List.mem_cons.mp h with h1 | h1
      · exact Or.inr (List.mem_cons.mpr (Or.inl h1))
      · rcases ih h1 with h2 | h2
        · exact Or.inl h2
        · exact Or.inr (List.mem_cons.mpr (Or.inr h2))

theorem sortByQtyDesc_mem_aux (y : String × Nat × Int × Int) :
    ∀ (l acc : List (String × Nat × Int × Int)),
      y ∈ l.foldl (fun acc x => insertByQty x acc) acc → y ∈ acc ∨ y ∈ l := by
  intro l
  induction l with
  | nil =>
    intro acc h
    exact Or.inl h
  | cons x xs ih =>
    intro acc h
    rw [List.foldl_cons] at h
    rcases ih (insertByQty x acc) h with h1 | h1
    · rcases insertByQty_mem x y acc h1 with h2 | h2
      · exact Or.inr (List.mem_cons.mpr (Or.inl h2))
      · exact Or.inl h2
    · exact Or.inr (List.mem_cons.mpr (Or.inr h1))

theorem sortByQtyDesc_mem (y : String × Nat × Int × Int)
    (l : List (String × Nat × Int × Int)) (h : y ∈ sortByQtyDesc l) : y ∈ l := by
  rcases sortByQtyDesc_mem_aux y l [] h with h1 | h1
  · simp at h1
  · exact h1

theorem isDig_digitChar (k : Nat) : isDig (digitChar k) = true := by
  rcases k with _|_|_|_|_|_|_|_|_|k <;> rfl

theorem dval_digitChar (k : Nat) (h : k < 10) : dval (digitChar k) = k := by
  interval_cases k <;> rfl

theorem digitsToNat_concat (l : List Char) (c : Char) :
    digitsToNat (l ++ [c]) = digitsToNat l * 10 + dval c := by
  simp [digitsToNat, List.foldl_append]

theorem natToCharsAux_spec :
    ∀ (fuel n : Nat), n < fuel →
      natToCharsAux fuel n ≠ [] ∧
      (∀ c ∈ natToCharsAux fuel n, isDig c = true) ∧
      digitsToNat (natToCharsAux fuel n) = n := by
  intro fuel
  induction fuel with
  | zero => intro n h; omega
  | succ fuel ih =>
    intro n h
    by_cases h10 : n < 10
    · simp only [natToCharsAux, if_pos h10]
      refine ⟨by simp, ?_, ?_⟩
      · intro c hc
        simp only [List.mem_singleton] at hc
        subst hc
        exact isDig_digitChar n
      · simp [digitsToNat, dval_digitChar n h10]
    · simp only [natToCharsAux, if_neg h10]
      have hlt : n / 10 < fuel := by omega
      obtain ⟨hne, hdig, hval⟩ := ih (n / 10) hlt
      refine ⟨by simp [hne], ?_, ?_⟩
      · intro c hc
        rcases List.mem_append.mp hc with hc | hc
        · exact hdig c hc
        · simp only [List.mem_singleton] at hc
          subst hc
          exact isDig_digitChar _
      · rw [digitsToNat_concat, hval, dval_digitChar _ (by omega)]
        omega

theorem natToChars_spec (n : Nat) :
    natToChars n ≠ [] ∧ (∀ c ∈ natToChars n, isDig c = true) ∧
      digitsToNat (natToChars n) = n :=
  natToCharsAux_spec (n + 1) n (by omega)

theorem expectLit_self : ∀ (l cs : List Char), expectLit l (l ++ cs) = some cs := by
  intro l
  induction l with
  | nil => intro cs; rfl
  | cons a l ih =>
    intro cs
    simp [expectLit, expectChar, ih]

theorem takeWhile_append_all (p : Char → Bool) :
    ∀ (l r : List Char), (∀ c ∈ l, p c = true) →
      (l ++ r).takeWhile p = l ++ r.takeWhile p := by
  intro l
  induction l with
  | nil => intro r _; simp
  | cons a l ih =>
    intro r h
    have ha : p a = true := h a (List.mem_cons_self a l)
    simp [List.cons_append, List.takeWhile_cons, ha,
      ih r (fun c hc => h c (List.mem_cons_of_mem a hc))]

theorem dropWhile_append_all (p : Char → Bool) :
    ∀ (l r : List Char), (∀ c ∈ l, p c = true) →
      (l ++ r).dropWhile p = r.dropWhile p := by
  intro l
  induction l with
  | nil => intro r _; simp
  | cons a l ih =>
    intro r h
    have ha : p a = true := h a (List.mem_cons_self a l)
    simp [List.cons_append, List.dropWhile_cons, ha,
      ih r (fun c hc => h c (List.mem_cons_of_mem a hc))]

theorem daysInMonth_le_31 (m y : Nat) : daysInMonth m y ≤ 31 := by
  unfold daysInMonth
  split
  · split <;> omega
  · split <;> omega

theorem pad2_val (n : Nat) (h : n < 100) :
    dval (digitChar (n / 10)) * 10 + dval (digitChar (n % 10)) = n := by
  rw [dval_digitChar _ (by omega), dval_digitChar _ (by omega)]
  omega

theorem readDatePart_pad (a b c : Nat) (R : List Char) :
    readDatePart (pad2 a ++ '/' :: (pad2 b ++ '/' :: (pad2 c ++ R))) =
      some ([digitChar (a / 10), digitChar (a % 10), '/',
             digitChar (b / 10), digitChar (b % 10), '/',
             digitChar (c / 10), digitChar (c % 10)], R) := by
  simp [readDatePart, pad2, readDig2, isDig_digitChar, expectChar]

theorem readTimePart_pad (a b c : Nat) (R : List Char) :
    readTimePart (pad2 a ++ ':' :: (pad2 b ++ ':' :: (pad2 c ++ R))) =
      some ([digitChar (a / 10), digitChar (a % 10), ':',
             digitChar (b / 10), digitChar (b % 10), ':',
             digitChar (c / 10), digitChar (c % 10)], R) := by
  simp [readTimePart, pad2, readDig2, isDig_digitChar, expectChar]

theorem sorted_dropWhile_lb (c : Int) :
    ∀ l : List LootEvent, l.Pairwise tsle →
      ∀ e ∈ l.dropWhile (fun e => e.ts.tsSec < c), c ≤ e.ts.tsSec := by
  intro l
  induction l with
  | nil =>
    intro _ e he
    simp [List.dropWhile] at he
  | cons a l ih =>
    intro hp e he
    rw [List.pairwise_cons] at hp
    rw [List.dropWhile_cons] at he
    by_cases ha : a.ts.tsSec < c
    · rw [if_pos (by simpa using ha)] at he
      exact ih hp.2 e he
    · rw [if_neg (by simpa using ha)] at he
      rcases List.mem_cons.mp he with rfl | he2
      · omega
      · exact le_trans (by omega) (hp.1 e he2)

theorem add_event_sorted_bounds (wm : Nat) (w : List LootEvent) (ev : LootEvent)
    (hs : w.Pairwise tsle) (hub : ∀ e ∈ w, e.ts.tsSec ≤ ev.ts.tsSec) :
    (add_event wm w ev false).Pairwise tsle ∧
      add_event wm w ev false ≠ [] ∧
      (∀ e ∈ add_event wm w ev false,
        ev.ts.tsSec - (wm * 60 : Nat) ≤ e.ts.tsSec ∧ e.ts.tsSec ≤ ev.ts.tsSec) := by
  have hsapp : (w ++ [ev]).Pairwise tsle := by
    rw [List.pairwise_append]
    refine ⟨hs, List.pairwise_singleton _ _, ?_⟩
    intro a ha b hb
    simp only [List.mem_singleton] at hb
    subst hb
    exact hub a ha
  have hform : add_event wm w ev false =
      (w ++ [ev]).dropWhile
        (fun e => e.ts.tsSec < ev.ts.tsSec - ((wm * 60 : Nat) : Int)) := by
    simp [add_event]
  rw [hform]
  refine ⟨List.Pairwise.sublist (List.dropWhile_sublist _) hsapp, ?_, ?_⟩
  · have h := dropWhile_concat_last
      (fun e => e.ts.tsSec < ev.ts.tsSec - ((wm * 60 : Nat) : Int)) w ev
      (cutoff_pred_self wm ev)
    exact h.1
  · intro e he
    constructor
    · exact sorted_dropWhile_lb _ _ hsapp e he
    · have hmem : e ∈ w ++ [ev] := (List.dropWhile_sublist _).subset he
      rcases List.mem_append.mp hmem with h | h
      · exact hub e h
      · simp only [List.mem_singleton] at h
        subst h
        exact le_refl _

theorem add_event_mem (wm : Nat) (w : List LootEvent) (ev : LootEvent)
    (e : LootEvent) (he : e ∈ add_event wm w ev false) : e ∈ w ∨ e = ev := by
  have hform : add_event wm w ev false =
      (w ++ [ev]).dropWhile
        (fun e => e.ts.tsSec < ev.ts.tsSec - ((wm * 60 : Nat) : Int)) := by
    simp [add_event]
  rw [hform] at he
  have hmem : e ∈ w ++ [ev] := (List.dropWhile_sublist _).subset he
  rcases List.mem_append.mp hmem with h | h
  · exact Or.inl h
  · simp only [List.mem_singleton] at h
    exact Or.inr h

theorem pushAll_master (wm : Nat) :
    ∀ (evs w0 : List LootEvent),
      w0.Pairwise tsle →
      (∀ e ∈ w0, ∀ f ∈ evs, e.ts.tsSec ≤ f.ts.tsSec) →
      evs.Pairwise tsle →
      (pushAll wm w0 evs).Pairwise tsle ∧
        (∀ e ∈ pushAll wm w0 evs, e ∈ w0 ∨ e ∈ evs) := by
  intro evs
  induction evs with
  | nil =>
    intro w0 h1 _ _
    exact ⟨h1, fun e he => Or.inl he⟩
  | cons f fs ih =>
    intro w0 h1 h2 h3
    rw [List.pairwise_cons] at h3
    have hub : ∀ e ∈ w0, e.ts.tsSec ≤ f.ts.tsSec :=
      fun e he => h2 e he f (List.mem_cons_self f fs)
    obtain ⟨hswp, _, hbounds⟩ := add_event_sorted_bounds wm w0 f h1 hub
    have h2b : ∀ e ∈ add_event wm w0 f false, ∀ g ∈ fs, e.ts.tsSec ≤ g.ts.tsSec := by
      intro e he g hg
      exact le_trans (hbounds e he).2 (h3.1 g hg)
    obtain ⟨ih1, ih2⟩ := ih (add_event wm w0 f false) hswp h2b h3.2
    have hfold : pushAll wm w0 (f :: fs) = pushAll wm (add_event wm w0 f false) fs := rfl
    rw [hfold]
    refine ⟨ih1, ?_⟩
    intro e he
    rcases ih2 e he with h | h
    · rcases add_event_mem wm w0 f e h with h4 | h4
      · exact Or.inl h4
      · exact Or.inr (List.mem_cons.mpr (Or.inl h4))
    · exact Or.inr (List.mem_cons.mpr (Or.inr h))

/-! ## Claims -/

/-- C10: for every non-negative window duration in minutes and every event,
after any call to add_event, with either value of ignore_cutoff, the window
is non-empty and its tail element is exactly the pushed event: the eviction
pass can never evict the pushed event itself, regardless of the order of the
timestamps already in the window. -/
theorem add_event_keeps_pushed_event (window_minutes : Nat) (w : List LootEvent)
    (ev : LootEvent) (ignore_cutoff : Bool) :
    add_event window_minutes w ev ignore_cutoff ≠ [] ∧
      (add_event window_minutes w ev ignore_cutoff).getLast? = some ev := by
  unfold add_event
  cases ignore_cutoff with
  | true =>
    refine ⟨by simp, ?_⟩
    simp
  | false =>
    simp only [if_neg (by simp : ¬ (false = true))]
    exact dropWhile_concat_last _ w ev (cutoff_pred_self window_minutes ev)

/-- C9: the aggregator is a pure function of the window contents and the
price table: two calls on equal inputs, with no intervening mutation, return
identical snapshots, field for field, including the order of the items
list (snapshot equality is structural equality of every field). -/
theorem aggregator_deterministic (w w2 : List LootEvent)
    (p p2 : List (String × Int)) (hw : w = w2) (hp : p = p2) :
    compute_stats_from_window w p = compute_stats_from_window w2 p2 := by
  subst hw
  subst hp
  rfl

theorem aggregator_deterministic_witness :
    compute_stats_from_window
        [{ ts := { day := 1, month := 1, y2 := 25, hour := 0, minute := 0, second := 0 },
           quantity := 3, item := "Shard" }] [("Shard", 1000)] =
      compute_stats_from_window
        [{ ts := { day := 1, month := 1, y2 := 25, hour := 0, minute := 0, second := 0 },
           quantity := 3, item := "Shard" }] [("Shard", 1000)] :=
  aggregator_deterministic _ _ _ _ rfl rfl

theorem emit_no_error (t : Bool) (o : Option Stats) (n : Notification)
    (hn : n ∈ (if t then
        (match o with
          | some st => [Notification.snap st]
          | none => [])
      else ([] : List Notification))) :
    n.isError = false := by
  cases t with
  | false => simp at hn
  | true =>
    cases o with
    | none => simp at hn
    | some st =>
      simp at hn
      subst hn
      rfl

theorem stepLoop_no_error (wm : Nat) (prices : List (String × Int)) :
    ∀ (steps : List Step) (w : List LootEvent) (n : Notification),
      n ∈ stepLoop wm prices steps w → n.isError = false := by
  intro steps
  induction steps with
  | nil =>
    intro w n hn
    simp only [stepLoop, List.mem_singleton] at hn
    subst hn
    rfl
  | cons s rest ih =>
    intro w n hn
    simp only [stepLoop] at hn
    rcases hmatch : (match s.line with
      | none => some w
      | some l =>
        match parse_log_line l with
        | .error _ => none
        | .ok none => some w
        | .ok (some ev) => some (add_event wm w ev false)) with _ | w2
    · rw [hmatch] at hn
      simp at hn
    · rw [hmatch] at hn
      simp only [List.mem_append] at hn
      rcases hn with hn | hn
      · exact emit_no_error s.tick (compute_stats_from_window w2 prices) n hn
      · exact ih w2 n hn

/-- C8: in any single run of the tail driver, an Error notification occurs
exactly on the open-failure path: when the open fails the whole run is the
opening status followed by the single error notification, with nothing after
it (no reads, pushes, snapshots, or further notifications); when the open
succeeds, no notification of the run is ever an error. -/
theorem single_error_only_on_open_failure (from_start : Bool)
    (histLines : List String) (steps : List Step) (wm : Nat)
    (prices : List (String × Int)) :
    runWorker false from_start histLines steps wm prices =
        [.status "Opening log file...", .error "Cannot open log file"] ∧
      (∀ n : Notification,
        n ∈ runWorker true from_start histLines steps wm prices →
          n.isError = false) := by
  constructor
  · rfl
  · intro n hn
    simp only [runWorker, if_neg (by simp : ¬ (true = false))] at hn
    rcases List.mem_cons.mp hn with hn | hn
    · subst hn; rfl
    · cases from_start with
      | false =>
        simp only [Bool.false_eq_true, if_neg (by simp : ¬ False)] at hn
        rcases List.mem_cons.mp hn with hn | hn
        · subst hn; rfl
        · exact stepLoop_no_error wm prices steps [] n hn
      | true =>
        simp only [if_pos rfl] at hn
        rcases List.mem_cons.mp hn with hn | hn
        · subst hn; rfl
        · rcases hh : histLoad wm histLines [] with _ | w
          · rw [hh] at hn
            simp at hn
          · rw [hh] at hn
            rcases List.mem_cons.mp hn with hn | hn
            · subst hn; rfl
            · rcases List.mem_append.mp hn with hn | hn
              · rcases hc : compute_stats_from_window w prices with _ | st
                · rw [hc] at hn
                  simp at hn
                · rw [hc] at hn
                  simp only [List.mem_singleton] at hn
                  subst hn
                  rfl
              · exact stepLoop_no_error wm prices steps w n hn

/-- C3: for every non-empty window the aggregator floors the elapsed time at
one second — the hours field is exactly the floored span divided by 3600 and
is strictly positive, so no division by zero occurs even for a single event
or equal timestamps — and the currency per-hour rate is the integer rounding
of the currency total divided by that elapsed time in hours; in particular a
window spanning exactly two hours with total currency quantity 1000 yields a
currency per-hour rate of 500. -/
theorem elapsed_floor_and_hourly_rate :
    (∀ (e0 : LootEvent) (rest : List LootEvent) (prices : List (String × Int)),
      ∃ st, compute_stats_from_window (e0 :: rest) prices = some st ∧
        st.hours = ((max ((lastEv e0 rest).ts.tsSec - e0.ts.tsSec) 1 : Int) : Rat) / 3600 ∧
        0 < st.hours ∧
        st.yang_per_hour = pyRound ((yangTotal (e0 :: rest) : Rat) / st.hours)) ∧
    (compute_stats_from_window
        [{ ts := { day := 1, month := 1, y2 := 25, hour := 0, minute := 0, second := 0 },
           quantity := 600, item := "Yang" },
         { ts := { day := 1, month := 1, y2 := 25, hour := 2, minute := 0, second := 0 },
           quantity := 400, item := "Yang" }] []).map Stats.yang_per_hour =
      some 500 := by
  have hgen : ∀ (e0 : LootEvent) (rest : List LootEvent) (prices : List (String × Int)),
      ∃ st, compute_stats_from_window (e0 :: rest) prices = some st ∧
        st.hours = ((max ((lastEv e0 rest).ts.tsSec - e0.ts.tsSec) 1 : Int) : Rat) / 3600 ∧
        0 < st.hours ∧
        st.yang_per_hour = pyRound ((yangTotal (e0 :: rest) : Rat) / st.hours) := by
    intro e0 rest prices
    refine ⟨_, rfl, ?_, ?_, ?_⟩
    · dsimp only [compute_stats_from_window]
    · dsimp only [compute_stats_from_window]
      have h1 : (1 : Int) ≤ max ((lastEv e0 rest).ts.tsSec - e0.ts.tsSec) 1 :=
        le_max_right _ _
      have h2 : (1 : Rat) ≤ ((max ((lastEv e0 rest).ts.tsSec - e0.ts.tsSec) 1 : Int) : Rat) := by
        exact_mod_cast h1
      have h3 : (0 : Rat) < ((max ((lastEv e0 rest).ts.tsSec - e0.ts.tsSec) 1 : Int) : Rat) :=
        lt_of_lt_of_le one_pos h2
      exact div_pos h3 (by norm_num)
    · dsimp only [compute_stats_from_window]
      rw [dropped_yang_eq]
  refine ⟨hgen, ?_⟩
  obtain ⟨st, hst, hhours, hpos, hrate⟩ := hgen
    { ts := { day := 1, month := 1, y2 := 25, hour := 0, minute := 0, second := 0 },
      quantity := 600, item := "Yang" }
    [{ ts := { day := 1, month := 1, y2 := 25, hour := 2, minute := 0, second := 0 },
       quantity := 400, item := "Yang" }] []
  rw [hst]
  have hspan : (lastEv
      { ts := { day := 1, month := 1, y2 := 25, hour := 0, minute := 0, second := 0 },
        quantity := 600, item := "Yang" }
      [{ ts := { day := 1, month := 1, y2 := 25, hour := 2, minute := 0, second := 0 },
         quantity := 400, item := "Yang" }]).ts.tsSec -
      ({ ts := { day := 1, month := 1, y2 := 25, hour := 0, minute := 0, second := 0 },
         quantity := 600, item := "Yang" } : LootEvent).ts.tsSec = 7200 := by decide
  rw [hspan] at hhours
  have hyt : yangTotal
      [{ ts := { day := 1, month := 1, y2 := 25, hour := 0, minute := 0, second := 0 },
         quantity := 600, item := "Yang" },
       { ts := { day := 1, month := 1, y2 := 25, hour := 2, minute := 0, second := 0 },
         quantity := 400, item := "Yang" }] = 1000 := by decide
  rw [hyt] at hrate
  have hmax : (max (7200 : Int) 1) = 7200 := by decide
  rw [hmax] at hhours
  have hh2 : st.hours = 2 := by
    rw [hhours]
    norm_num
  have : ((1000 : Nat) : Rat) / st.hours = ((500 : Int) : Rat) := by
    rw [hh2]
    norm_num
  rw [this, pyRound_intCast] at hrate
  simp [hrate]

theorem compute_stats_none_iff (w : List LootEvent) (prices : List (String × Int)) :
    compute_stats_from_window w prices = none ↔ w = [] := by
  cases w with
  | nil => simp [compute_stats_from_window]
  | cons e rest => simp [compute_stats_from_window]

theorem histLoad_no_match (wm : Nat) :
    ∀ (lines : List String) (w : List LootEvent),
      (∀ l ∈ lines, parse_log_line l = .ok none) →
      histLoad wm lines w = some w := by
  intro lines
  induction lines with
  | nil => intro w _; rfl
  | cons l ls ih =>
    intro w h
    have hl : parse_log_line l = .ok none := h l (List.mem_cons_self l ls)
    simp only [histLoad, hl]
    exact ih w (fun x hx => h x (List.mem_cons_of_mem l hx))

theorem stepLoop_no_match (wm : Nat) (prices : List (String × Int)) :
    ∀ (steps : List Step),
      (∀ s ∈ steps, (s.line.map parse_log_line).getD (.ok none) = .ok none) →
      (stepLoop wm prices steps []).filter Notification.isSnap = [] := by
  intro steps
  induction steps with
  | nil => intro _; rfl
  | cons s rest ih =>
    intro h
    have hs : (s.line.map parse_log_line).getD (.ok none) = .ok none :=
      h s (List.mem_cons_self s rest)
    have hw2 : (match s.line with
        | none => some ([] : List LootEvent)
        | some l =>
          match parse_log_line l with
          | .error _ => none
          | .ok none => some []
          | .ok (some ev) => some (add_event wm [] ev false)) = some [] := by
      cases hline : s.line with
      | none => rfl
      | some l =>
        rw [hline] at hs
        simp at hs
        simp [hs]

    simp only [stepLoop, hw2]
    rw [List.filter_append]
    have hemit : ((if s.tick then
        (match compute_stats_from_window [] prices with
          | some st => [Notification.snap st]
          | none => [])
      else ([] : List Notification)) : List Notification).filter Notification.isSnap = [] := by
      cases s.tick <;> simp [compute_stats_from_window]
    rw [hemit]
    simp only [List.nil_append]
    exact ih (fun x hx => h x (List.mem_cons_of_mem s hx))

theorem filter_snap_status (s : String) (l : List Notification) :
    (Notification.status s :: l).filter Notification.isSnap =
      l.filter Notification.isSnap := by
  simp [List.filter, Notification.isSnap]

/-- C7: the aggregator returns None exactly when the window is empty, and a
run of the driver in which no line ever matches the grammar emits no
snapshot at all, on any cadence tick: only status (or open-failure error)
notifications occur. -/
theorem no_snapshot_when_window_empty :
    (∀ (w : List LootEvent) (prices : List (String × Int)),
        compute_stats_from_window w prices = none ↔ w = []) ∧
    (∀ (openOk from_start : Bool) (histLines : List String) (steps : List Step)
        (wm : Nat) (prices : List (String × Int)),
      (∀ l ∈ histLines, parse_log_line l = .ok none) →
      (∀ s ∈ steps, (s.line.map parse_log_line).getD (.ok none) = .ok none) →
      (runWorker openOk from_start histLines steps wm prices).filter
        Notification.isSnap = []) := by
  refine ⟨compute_stats_none_iff, ?_⟩
  intro openOk from_start histLines steps wm prices hh hsteps
  cases openOk with
  | false => rfl
  | true =>
    cases from_start with
    | false =>
      have h1 := stepLoop_no_match wm prices steps hsteps
      simp [runWorker, filter_snap_status, h1]
    | true =>
      have h1 := stepLoop_no_match wm prices steps hsteps
      have h2 := histLoad_no_match wm histLines [] hh
      simp [runWorker, h2, compute_stats_from_window, filter_snap_status, h1]

theorem no_snapshot_when_window_empty_witness :
    (compute_stats_from_window [] [] = none ↔ ([] : List LootEvent) = []) ∧
      (runWorker true true ["random chat noise"]
          [{ line := some "more noise", tick := true }, { line := none, tick := true }]
          120 []).filter Notification.isSnap = [] :=
  ⟨no_snapshot_when_window_empty.1 [] [],
    no_snapshot_when_window_empty.2 true true ["random chat noise"]
      [{ line := some "more noise", tick := true }, { line := none, tick := true }]
      120 []
      (by
        intro l hl
        simp only [List.mem_singleton] at hl
        subst hl
        rfl)
      (by
        intro s hs
        simp only [List.mem_cons, List.mem_singleton, List.not_mem_nil, or_false] at hs
        rcases hs with rfl | rfl <;> rfl)⟩

/-- C1 counterexample: a line whose bracketed fields match the digit pattern
but denote no real calendar date — day 32 — makes parse_log_line propagate
the ValueError that strptime raises, instead of returning the no-event
result; so the parser does not return LootEvent-or-None on every input
line. -/
theorem parse_raises_on_unreal_date :
    raisesError (parse_log_line "[32/01/25] [00:00:00]: You receive 1 Yang.") =
      true := by decide

/-- C1 amended: parse_log_line returns a populated LootEvent or the explicit
no-event result None — in particular ok none on every line the regex does
not match — and raises exactly on the lines where the regex matches but the
captured date and time fields are rejected by strptime (an unreal calendar
date or time of day). -/
theorem parse_total_except_invalid_datetime (line : String) :
    (raisesError (parse_log_line line) = true ↔
      ∃ g : String × String × String × String,
        searchFrom line.data = some g ∧ strptimeRaises g.1 g.2.1 = true) ∧
    (searchFrom line.data = none → parse_log_line line = .ok none) := by
  constructor
  · cases hs : searchFrom line.data with
    | none =>
      simp only [parse_log_line, hs]
      constructor
      · intro h
        cases h
      · rintro ⟨g, hg, _⟩
        cases hg
    | some g =>
      obtain ⟨d, t, q, i⟩ := g
      simp only [parse_log_line, hs]
      cases hp : parse_datetime_from_log d t with
      | error e =>
        constructor
        · intro _
          exact ⟨(d, t, q, i), rfl, by simp [strptimeRaises, hp]⟩
        · intro _
          rfl
      | ok dt =>
        constructor
        · intro h
          cases h
        · rintro ⟨g2, hg2, hr⟩
          injection hg2 with hg2
          subst hg2
          simp [strptimeRaises, hp] at hr
  · intro h
    simp [parse_log_line, h]

theorem parse_total_except_invalid_datetime_witness :
    parse_log_line "random chat noise" = .ok none :=
  (parse_total_except_invalid_datetime "random chat noise").2 (by decide)

/-- C4 counterexample: on the grammar-shaped line whose item name itself
contains a period, the lazy item group stops at the FIRST period after the
quantity, not the final one: the extracted item is Foo, not Foo.Bar, and
re-serializing the extracted fields does not restore the line — parsing is
not lossless for item names containing a period. -/
theorem item_group_stops_at_first_period :
    parsedItemOf "[01/01/25] [00:00:00]: You receive 5 Foo.Bar." = some "Foo" ∧
      "Foo" ≠ "Foo.Bar" ∧
      reserializedOf "[01/01/25] [00:00:00]: You receive 5 Foo.Bar." =
        some "[01/01/25] [00:00:00]: You receive 5 Foo." ∧
      some "[01/01/25] [00:00:00]: You receive 5 Foo." ≠
        some "[01/01/25] [00:00:00]: You receive 5 Foo.Bar." := by decide

/-- C4 amended: the item group captures the text between the quantity and
the FIRST following period, never crossing a newline; consequently parsing
then re-serializing is lossless for the captured fields whenever the item
name is non-empty and contains neither a period nor a newline: serializing
any valid timestamp, quantity and such an item name and parsing the line
back recovers the fields exactly. -/
theorem roundtrip_lossless_for_period_free_items (d : DateTime) (q : Nat)
    (item : String) (hd : d.valid = true) (hne : item.data ≠ [])
    (hchars : ∀ c ∈ item.data, c ≠ '.' ∧ c ≠ '\n') :
    parse_log_line (serializeEvent { ts := d, quantity := q, item := item }) =
      .ok (some { ts := d, quantity := q, item := item }) := by
  -- numeric bounds from validity
  have hvb := hd
  simp only [DateTime.valid, Bool.and_eq_true, decide_eq_true_eq] at hvb
  obtain ⟨⟨⟨⟨⟨⟨⟨h1, h2⟩, h3⟩, h4⟩, h5⟩, h6⟩, h7⟩, h8⟩ := hvb
  have hday : d.day < 100 := by
    have := daysInMonth_le_31 d.month (fullYear d.y2)
    omega
  have hmonth : d.month < 100 := by omega
  have hy2 : d.y2 < 100 := by omega
  have hhour : d.hour < 100 := by omega
  have hminute : d.minute < 100 := by omega
  have hsecond : d.second < 100 := by omega
  have hqspec := natToChars_spec q
  -- the serialized character list
  have hdata : (serializeEvent { ts := d, quantity := q, item := item }).data =
      '[' :: (pad2 d.day ++ '/' :: (pad2 d.month ++ '/' :: (pad2 d.y2
        ++ litMid ++ (pad2 d.hour ++ ':' :: (pad2 d.minute
        ++ ':' :: (pad2 d.second
        ++ litRecv ++ (natToChars q
        ++ ' ' :: (item.data ++ ['.'])))))))) := rfl
  -- the quantity group
  have hspd : isDig ' ' = false := by decide
  have htake : (natToChars q ++ ' ' :: (item.data ++ ['.'])).takeWhile isDig =
      natToChars q := by
    rw [takeWhile_append_all isDig _ _ hqspec.2.1]
    simp [List.takeWhile_cons, hspd]
  have hdrop : (natToChars q ++ ' ' :: (item.data ++ ['.'])).dropWhile isDig =
      ' ' :: (item.data ++ ['.']) := by
    rw [dropWhile_append_all isDig _ _ hqspec.2.1]
    simp [List.dropWhile_cons, hspd]
  have hqty : readQty (natToChars q ++ ' ' :: (item.data ++ ['.'])) =
      some (natToChars q, item.data ++ ['.']) := by
    simp only [readQty, htake, hdrop]
    rw [if_neg hqspec.1]
    simp [expectChar]
  -- the item group
  obtain ⟨c0, rest0, hitem⟩ : ∃ c r, item.data = c :: r := by
    cases hx : item.data with
    | nil => exact absurd hx hne
    | cons c r => exact ⟨c, r, rfl⟩
  have hc0 : c0 ≠ '.' ∧ c0 ≠ '\n' :=
    hchars c0 (by rw [hitem]; exact List.mem_cons_self _ _)
  have hrest0 : ∀ c ∈ rest0, ((c ≠ '.' : Bool) && (c ≠ '\n' : Bool)) = true := by
    intro c hc
    have h := hchars c (by rw [hitem]; exact List.mem_cons_of_mem _ hc)
    simp [h.1, h.2]
  have htl : (rest0 ++ ['.']).takeWhile (fun x => x ≠ '.' && x ≠ '\n') = rest0 := by
    rw [takeWhile_append_all _ _ _ hrest0]
    simp [List.takeWhile_cons]
  have hitemread : readItem (item.data ++ ['.']) = some item.data := by
    rw [hitem]
    simp only [List.cons_append, readItem]
    rw [if_neg hc0.2]
    simp only [htl]
    have hdropn : (rest0 ++ ['.']).drop rest0.length = ['.'] :=
      List.drop_left rest0 ['.']
    simp [hdropn]
  -- the whole pattern
  have hmatch : matchAt ('[' :: (pad2 d.day ++ '/' :: (pad2 d.month ++ '/' :: (pad2 d.y2
        ++ litMid ++ (pad2 d.hour ++ ':' :: (pad2 d.minute
        ++ ':' :: (pad2 d.second
        ++ litRecv ++ (natToChars q
        ++ ' ' :: (item.data ++ ['.']))))))))) =
      some (String.mk [digitChar (d.day / 10), digitChar (d.day % 10), '/',
              digitChar (d.month / 10), digitChar (d.month % 10), '/',
              digitChar (d.y2 / 10), digitChar (d.y2 % 10)],
            String.mk [digitChar (d.hour / 10), digitChar (d.hour % 10), ':',
              digitChar (d.minute / 10), digitChar (d.minute % 10), ':',
              digitChar (d.second / 10), digitChar (d.second % 10)],
            String.mk (natToChars q), item) := by
    simp [matchAt, expectChar, List.append_assoc, readDatePart_pad,
      readTimePart_pad, expectLit_self, hqty, hitemread]
  -- the search finds the match at position zero
  have hsearch : searchFrom ('[' :: (pad2 d.day ++ '/' :: (pad2 d.month ++ '/' :: (pad2 d.y2
        ++ litMid ++ (pad2 d.hour ++ ':' :: (pad2 d.minute
        ++ ':' :: (pad2 d.second
        ++ litRecv ++ (natToChars q
        ++ ' ' :: (item.data ++ ['.']))))))))) =
      some (String.mk [digitChar (d.day / 10), digitChar (d.day % 10), '/',
              digitChar (d.month / 10), digitChar (d.month % 10), '/',
              digitChar (d.y2 / 10), digitChar (d.y2 % 10)],
            String.mk [digitChar (d.hour / 10), digitChar (d.hour % 10), ':',
              digitChar (d.minute / 10), digitChar (d.minute % 10), ':',
              digitChar (d.second / 10), digitChar (d.second % 10)],
            String.mk (natToChars q), item) := by
    simp only [searchFrom]
    rw [hmatch]
  -- strptime recovers the timestamp fields
  have hdt : parse_datetime_from_log
      (String.mk [digitChar (d.day / 10), digitChar (d.day % 10), '/',
        digitChar (d.month / 10), digitChar (d.month % 10), '/',
        digitChar (d.y2 / 10), digitChar (d.y2 % 10)])
      (String.mk [digitChar (d.hour / 10), digitChar (d.hour % 10), ':',
        digitChar (d.minute / 10), digitChar (d.minute % 10), ':',
        digitChar (d.second / 10), digitChar (d.second % 10)]) = .ok d := by
    simp only [parse_datetime_from_log, isDig_digitChar, Bool.and_self, if_pos]
    have e1 := pad2_val d.day hday
    have e2 := pad2_val d.month hmonth
    have e3 := pad2_val d.y2 hy2
    have e4 := pad2_val d.hour hhour
    have e5 := pad2_val d.minute hminute
    have e6 := pad2_val d.second hsecond
    rw [e1, e2, e3, e4, e5, e6]
    have heta : DateTime.mk d.day d.month d.y2 d.hour d.minute d.second = d := rfl
    rw [heta, hd]
    rfl
  -- assemble
  simp only [parse_log_line, hdata, hsearch, hdt]
  have hq : digitsToNat (String.mk (natToChars q)).data = q := hqspec.2.2
  rw [hq]

theorem roundtrip_lossless_for_period_free_items_witness :
    parse_log_line (serializeEvent
        { ts := sampleTs, quantity := 3750, item := "Yang" }) =
      .ok (some { ts := sampleTs, quantity := 3750, item := "Yang" }) :=
  roundtrip_lossless_for_period_free_items sampleTs 3750 "Yang" (by decide)
    (by decide) (by decide)

/-- C2: pushing any non-decreasing sequence of events from the empty window
through add_event with ignore_cutoff false leaves, after each push, a
non-empty window in which either exactly one event remains or the newest
timestamp minus the oldest timestamp is at most the window duration — the
cutoff being recomputed on each push as the pushed timestamp minus the
duration, every surviving pair of events differs by at most the duration in
seconds. -/
theorem window_span_bounded_after_push (wm : Nat) (pre suf : List LootEvent)
    (ev : LootEvent)
    (hmono : (pre ++ ev :: suf).Chain' tsle) :
    pushAll wm [] (pre ++ [ev]) ≠ [] ∧
      ((pushAll wm [] (pre ++ [ev])).length = 1 ∨
        ∀ e ∈ pushAll wm [] (pre ++ [ev]), ∀ f ∈ pushAll wm [] (pre ++ [ev]),
          e.ts.tsSec - f.ts.tsSec ≤ ((wm * 60 : Nat) : Int)) := by
  have hpw : (pre ++ ev :: suf).Pairwise tsle := List.chain'_iff_pairwise.mp hmono
  have hpre : pre.Pairwise tsle :=
    List.Pairwise.sublist (List.sublist_append_left pre (ev :: suf)) hpw
  have hub0 : ∀ a ∈ pre, tsle a ev := by
    intro a ha
    exact (List.pairwise_append.mp hpw).2.2 a ha ev (List.mem_cons_self ev suf)
  obtain ⟨hsp, hmemp⟩ := pushAll_master wm pre [] List.Pairwise.nil (by simp) hpre
  have hub2 : ∀ e ∈ pushAll wm [] pre, e.ts.tsSec ≤ ev.ts.tsSec := by
    intro e he
    rcases hmemp e he with h | h
    · simp at h
    · exact hub0 e h
  obtain ⟨_, hne2, hb2⟩ := add_event_sorted_bounds wm (pushAll wm [] pre) ev hsp hub2
  have hpush : pushAll wm [] (pre ++ [ev]) =
      add_event wm (pushAll wm [] pre) ev false := by
    simp [pushAll, List.foldl_append]
  rw [hpush]
  refine ⟨hne2, Or.inr ?_⟩
  intro e he f hf
  have h1 := (hb2 e he).2
  have h2 := (hb2 f hf).1
  omega

theorem window_span_bounded_after_push_witness :
    pushAll 120 []
      [{ ts := sampleTs, quantity := 600, item := "Yang" },
       { ts := sampleTs2, quantity := 400, item := "Yang" }] ≠ [] :=
  (window_span_bounded_after_push 120
    [{ ts := sampleTs, quantity := 600, item := "Yang" }] []
    { ts := sampleTs2, quantity := 400, item := "Yang" }
    (by
      rw [List.singleton_append]
      refine List.chain'_cons.mpr ⟨?_, List.chain'_singleton _⟩
      show sampleTs.tsSec ≤ sampleTs2.tsSec
      decide)).1

/-- C5: in every snapshot of a non-empty window, each non-currency item row
carries a monetary value equal to its aggregated received quantity times the
unit price the price table gives the item name, the price defaulting to 0
when the name is absent; in particular quantity 3 of Shard at unit price
1000 values at 3000, and at 0 when the table is empty. -/
theorem monetary_value_eq_qty_mul_price :
    (∀ (e0 : LootEvent) (rest : List LootEvent) (prices : List (String × Int))
        (st : Stats) (entry : String × Nat × Int × Int),
      compute_stats_from_window (e0 :: rest) prices = some st →
      entry ∈ st.items →
      entry.2.2.2 = (entry.2.1 : Int) * priceGet prices entry.1 ∧
        entry.2.1 = itemQtySum (e0 :: rest) entry.1) ∧
    ((compute_stats_from_window [{ ts := sampleTs, quantity := 3, item := "Shard" }]
        [("Shard", 1000)]).map
      (fun st => st.items.map (fun e => (e.1, e.2.1, e.2.2.2))) =
      some [("Shard", 3, (3000 : Int))]) ∧
    ((compute_stats_from_window [{ ts := sampleTs, quantity := 3, item := "Shard" }]
        []).map
      (fun st => st.items.map (fun e => (e.1, e.2.1, e.2.2.2))) =
      some [("Shard", 3, (0 : Int))]) := by
  refine ⟨?_, by decide, by decide⟩
  intro e0 rest prices st entry hst hmem
  simp only [compute_stats_from_window] at hst
  injection hst with hst
  subst hst
  dsimp only at hmem
  have hmem2 := sortByQtyDesc_mem _ _ hmem
  rw [List.mem_map] at hmem2
  obtain ⟨nq, hin, heq⟩ := hmem2
  subst heq
  obtain ⟨n0, q0⟩ := nq
  refine ⟨rfl, ?_⟩
  obtain ⟨hnd, hlook⟩ := tally_fold_items (e0 :: rest)
    { items_qty := [], dungeon_runs := [], total_runs := 0 } (by simp [keysOf])
  have hl := lookup_of_mem_nodup _ _ _ hnd hin
  rw [hlook n0] at hl
  have hnone : lookupNat
      ({ items_qty := [], dungeon_runs := [], total_runs := 0 } : LoopAcc).items_qty n0 =
      none := rfl
  rw [hnone] at hl
  by_cases hocc : occursItem (e0 :: rest) n0 = true
  · rw [if_pos hocc] at hl
    exact (Option.some.inj hl).symm
  · rw [if_neg hocc] at hl
    cases hl

theorem monetary_value_eq_qty_mul_price_witness :
    (3000 : Int) = ((3 : Nat) : Int) * priceGet [("Shard", 1000)] "Shard" ∧
      (3 : Nat) = itemQtySum [{ ts := sampleTs, quantity := 3, item := "Shard" }]
        "Shard" := by
  have h := monetary_value_eq_qty_mul_price.1
    { ts := sampleTs, quantity := 3, item := "Shard" } [] [("Shard", 1000)]
    _ _ rfl (List.mem_singleton.mpr rfl)
  exact h

/-- C6: in every snapshot of a non-empty window, the count of each category
of the DUNGEONS table is the sum of the full received quantities of the
non-currency events whose item name lies in that category's chest list (not
an event count of 1 per event), the category being present exactly when such
an event occurs; in particular two events of quantities 2 and 5 for the item
named Truhe des Razador yield a Razador count of 7. -/
theorem category_counts_sum_quantities :
    (∀ (e0 : LootEvent) (rest : List LootEvent) (prices : List (String × Int))
        (st : Stats),
      compute_stats_from_window (e0 :: rest) prices = some st →
      ∀ name info, dLookup DUNGEONS name = some info →
        lookupNat st.dungeon_runs name =
          (if dOccurs (e0 :: rest) info.items then
            some (dungeonQtySum (e0 :: rest) info.items)
          else none)) ∧
    (lookupNat (((compute_stats_from_window
        [{ ts := sampleTs, quantity := 2, item := "Truhe des Razador" },
         { ts := sampleTs2, quantity := 5, item := "Truhe des Razador" }] []).map
      Stats.dungeon_runs).getD []) "Razador" = some 7) := by
  refine ⟨?_, by decide⟩
  intro e0 rest prices st hst name info hlk
  simp only [compute_stats_from_window] at hst
  injection hst with hst
  subst hst
  dsimp only
  obtain ⟨hnd, hlook⟩ := tally_fold_dungeons (e0 :: rest)
    { items_qty := [], dungeon_runs := [], total_runs := 0 } (by simp [keysOf])
  rw [hlook name info hlk]
  rfl

theorem category_counts_sum_quantities_witness :
    lookupNat (((compute_stats_from_window
        [{ ts := sampleTs, quantity := 2, item := "Truhe des Razador" },
         { ts := sampleTs2, quantity := 5, item := "Truhe des Razador" }] []).map
      Stats.dungeon_runs).getD []) "Razador" =
      (if dOccurs
          [{ ts := sampleTs, quantity := 2, item := "Truhe des Razador" },
           { ts := sampleTs2, quantity := 5, item := "Truhe des Razador" }]
          ["Truhe des Razador", "Razador\x27s Chest"] then
        some (dungeonQtySum
          [{ ts := sampleTs, quantity := 2, item := "Truhe des Razador" },
           { ts := sampleTs2, quantity := 5, item := "Truhe des Razador" }]
          ["Truhe des Razador", "Razador\x27s Chest"])
      else none) := by
  have h := category_counts_sum_quantities.1
    { ts := sampleTs, quantity := 2, item := "Truhe des Razador" }
    [{ ts := sampleTs2, quantity := 5, item := "Truhe des Razador" }] [] _ rfl
    "Razador"
    { items := ["Truhe des Razador", "Razador\x27s Chest"], color := "#7f1d1d" }
    (by decide)
  exact h

theorem single_error_only_on_open_failure_witness :
    runWorker false true ["noise"] [] 120 [] =
        [.status "Opening log file...", .error "Cannot open log file"] ∧
      Notification.isError (.status "Opening log file...") = false :=
  ⟨(single_error_only_on_open_failure true ["noise"] [] 120 []).1,
    (single_error_only_on_open_failure true ["noise"] [] 120 []).2
      (.status "Opening log file...") (by decide)⟩

end Jinteia
